import Mathlib

/-!
Verification of the offline audio-processing pipeline of the
simple-audio-editor repository: ease curves, the sample processor
(crop, volume, fades), the WAV (PCM container) encoder, waveform peak
extraction and the Opus MIME-type selection policy.

Times, durations and sample values are embedded as exact rationals, and
the gain envelopes (which involve square roots and exponential ramps) as
real numbers: the float arithmetic of the host is idealised to exact
arithmetic, which is the arithmetic the specification reasons in.
-/

namespace AudioEdit

/-- The four ease-curve kinds of the source type EaseCurve. -/
inductive EaseCurve where
  | linear
  | exponential
  | logarithmic
  | sCurve
deriving DecidableEq, Repr

/-- Translation of the source function applyEaseCurve: map a linear 0 to 1
progress value through the selected easing law (default case is linear). -/
noncomputable def applyEaseCurve (t : ℝ) (curve : EaseCurve) : ℝ :=
  match curve with
  | .exponential => t * t
  | .logarithmic => Real.sqrt t
  | .sCurve => t * t * (3 - 2 * t)
  | .linear => t

/-- C8: for every curve kind, applyEaseCurve restricted to t in the unit
interval is monotonically non-decreasing, maps 0 to 0 and 1 to 1, and the
four kinds compute t, t squared, the square root of t, and the smoothstep
polynomial t * t * (3 - 2 * t) respectively. -/
theorem applyEaseCurve_spec (c : EaseCurve) (t1 t2 : ℝ)
    (h0 : 0 ≤ t1) (h12 : t1 ≤ t2) (h21 : t2 ≤ 1) :
    applyEaseCurve t1 c ≤ applyEaseCurve t2 c ∧
    applyEaseCurve 0 c = 0 ∧ applyEaseCurve 1 c = 1 ∧
    (∀ t : ℝ, applyEaseCurve t .linear = t ∧
      applyEaseCurve t .exponential = t * t ∧
      applyEaseCurve t .logarithmic = Real.sqrt t ∧
      applyEaseCurve t .sCurve = t * t * (3 - 2 * t)) := by
  refine ⟨?_, ?_, ?_, fun t => ⟨rfl, rfl, rfl, rfl⟩⟩
  · cases c with
    | linear => exact h12
    | exponential => exact mul_le_mul h12 h12 h0 (h0.trans h12)
    | logarithmic => exact Real.sqrt_le_sqrt h12
    | sCurve =>
      show t1 * t1 * (3 - 2 * t1) ≤ t2 * t2 * (3 - 2 * t2)
      nlinarith [mul_nonneg (sub_nonneg.2 h12) (sub_nonneg.2 h12),
        mul_nonneg h0 (sub_nonneg.2 h12), sq_nonneg (t1 - t2),
        mul_nonneg (mul_nonneg h0 (sub_nonneg.2 h12)) (sub_nonneg.2 h21),
        mul_nonneg (sub_nonneg.2 h12) (sub_nonneg.2 h21)]
  · cases c <;> simp [applyEaseCurve]
  · cases c <;> simp [applyEaseCurve] <;> norm_num

/-- Witness for C8: the s-curve at 1 / 2 is below its value at 1, by the
monotonicity theorem applied at concrete inputs. -/
theorem applyEaseCurve_spec_witness :
    applyEaseCurve (1 / 2) .sCurve ≤ applyEaseCurve 1 .sCurve :=
  (applyEaseCurve_spec .sCurve (1 / 2) 1 (by norm_num) (by norm_num)
    (by norm_num)).1

/-- One fade configuration of the source type AudioEditSettings: enabled
flag, duration in seconds, easing curve. -/
structure FadeSettings where
  enabled : Bool
  duration : ℚ
  curve : EaseCurve
deriving DecidableEq, Repr

/-- The source type AudioEditSettings: crop window in seconds, static
volume multiplier, and the two fade configurations. -/
structure AudioEditSettings where
  cropStart : ℚ
  cropEnd : ℚ
  volume : ℚ
  fadeIn : FadeSettings
  fadeOut : FadeSettings
deriving DecidableEq, Repr

/-- The decoded multi-channel sample buffer (the platform AudioBuffer):
an integral sample rate in Hz and one sample list per channel. Samples are
embedded as exact rationals. -/
structure AudioBuffer where
  sampleRate : ℕ
  channels : List (List ℚ)
deriving DecidableEq, Repr

/-- Frame count of a buffer (the platform length property; channels of a
well-formed buffer all have this length). -/
def AudioBuffer.frameCount (b : AudioBuffer) : ℕ := (b.channels.headD []).length

/-- Channel count of a buffer. -/
def AudioBuffer.numberOfChannels (b : AudioBuffer) : ℕ := b.channels.length

/-- Duration of a buffer in seconds: frame count over sample rate. -/
def AudioBuffer.duration (b : AudioBuffer) : ℚ := (b.frameCount : ℚ) / b.sampleRate

/-- Sample list of one channel (the platform getChannelData). -/
def AudioBuffer.getChannelData (b : AudioBuffer) (ch : ℕ) : List ℚ :=
  b.channels.getD ch []

/-- A rendered buffer: output of the offline rendering pass. Its samples
are real numbers, since the gain envelopes involve square roots and
exponential ramps. -/
structure RenderedBuffer where
  sampleRate : ℕ
  channels : List (List ℝ)

/-- Frame count of a rendered buffer. -/
def RenderedBuffer.frameCount (b : RenderedBuffer) : ℕ := (b.channels.headD []).length

/-- Channel count of a rendered buffer. -/
def RenderedBuffer.channelCount (b : RenderedBuffer) : ℕ := b.channels.length

/-- The error the source processAudio can raise: the crop region is empty
after quantization to sample frames. -/
inductive ProcessError where
  | emptyRegion
deriving DecidableEq, Repr

/-- First frame of the crop region, from the source: floor of
cropStart times sampleRate. -/
def startSample (s : AudioEditSettings) (sampleRate : ℕ) : ℤ :=
  ⌊s.cropStart * sampleRate⌋

/-- One past the last frame of the crop region, from the source: floor of
cropEnd times sampleRate. -/
def endSample (s : AudioEditSettings) (sampleRate : ℕ) : ℤ :=
  ⌊s.cropEnd * sampleRate⌋

/-- Quantized length of the crop region in frames, from the source. -/
def croppedLength (s : AudioEditSettings) (sampleRate : ℕ) : ℤ :=
  endSample s sampleRate - startSample s sampleRate

/-- Gain of the fade-in stage at normalized progress p (0 at the window
start, 1 at its end), from the events the source schedules on the gain
parameter: for the exponential curve an exponential ramp from the epsilon
floor 0.001 to the volume (the source sets 0.001 at time 0 because an
exponential ramp cannot start from 0); for the other curves the eased
progress scaled by the volume (linear ramp, or the sampled 100-step curve
of applyEaseCurve values scaled by volume, idealised here at full
resolution as the spec's section on gain-stage scripting directs). -/
noncomputable def fadeInGain (volume : ℚ) (curve : EaseCurve) (p : ℚ) : ℝ :=
  match curve with
  | .exponential => (1 / 1000 : ℝ) * ((1000 : ℝ) * volume) ^ (p : ℝ)
  | c => (volume : ℝ) * applyEaseCurve (p : ℝ) c

/-- Gain of the fade-out stage at normalized progress p, from the events
the source schedules: for the exponential curve an exponential ramp from
the volume down to the epsilon floor 0.001; for the other curves the
mirrored eased progress scaled by the volume. -/
noncomputable def fadeOutGain (volume : ℚ) (curve : EaseCurve) (p : ℚ) : ℝ :=
  match curve with
  | .exponential => (volume : ℝ) * ((1 / 1000 : ℝ) / volume) ^ (p : ℝ)
  | c => (volume : ℝ) * applyEaseCurve (1 - (p : ℝ)) c

/-- Modelled from the spec: the instantaneous gain of the single gain
stage at time t of the cropped region of duration T. The source only
schedules automation events on an OfflineAudioContext gain parameter and
the rendering itself is done by the platform, which is not part of the
repository; the spec describes the resulting gain as the static volume,
overridden inside the fade-in window by the fade-in envelope and — applied
later in the same gain stage, so winning from its window's control point
on — inside the fade-out window by the fade-out envelope. The fade guards
(enabled with positive duration) and the window arithmetic (durations
clipped to the region, fade-out window ending at the region end) are the
source's. -/
noncomputable def gainAt (s : AudioEditSettings) (T t : ℚ) : ℝ :=
  let foD := min s.fadeOut.duration T
  let foStart := T - foD
  let fiD := min s.fadeIn.duration T
  if s.fadeOut.enabled = true ∧ 0 < s.fadeOut.duration ∧ foStart ≤ t then
    fadeOutGain s.volume s.fadeOut.curve ((t - foStart) / foD)
  else if s.fadeIn.enabled = true ∧ 0 < s.fadeIn.duration ∧ t < fiD then
    fadeInGain s.volume s.fadeIn.curve (t / fiD)
  else (s.volume : ℝ)

/-- The source processAudio: quantize the crop region, fail with
emptyRegion when it is empty, otherwise render the cropped region with
the composed gain. The validation and the region arithmetic are the
source's; the per-frame rendering (read source frame startSample + i,
multiply by the instantaneous gain at time i / sampleRate) is the
platform renderer's, modelled from the spec's sample-processor section. -/
noncomputable def processAudio (src : AudioBuffer) (s : AudioEditSettings) :
    Except ProcessError RenderedBuffer :=
  if croppedLength s src.sampleRate ≤ 0 then .error .emptyRegion
  else
    .ok ⟨src.sampleRate, src.channels.map fun chData =>
      (List.range (croppedLength s src.sampleRate).toNat).map fun (i : ℕ) =>
        (chData.getD ((startSample s src.sampleRate).toNat + i) 0 : ℝ) *
          gainAt s ((croppedLength s src.sampleRate : ℚ) / src.sampleRate)
            ((i : ℚ) / src.sampleRate)⟩

/-- C2: processAudio fails, and fails with emptyRegion, exactly when the
quantized cropped length is at most 0; otherwise it returns a buffer.
With the Except result type no partial buffer accompanies the failure,
and the equivalence in both directions shows this is the only validation
the processor performs. -/
theorem processAudio_emptyRegion_iff (src : AudioBuffer) (s : AudioEditSettings) :
    (processAudio src s = .error .emptyRegion ↔ croppedLength s src.sampleRate ≤ 0) ∧
    ((∃ out, processAudio src s = .ok out) ↔ 0 < croppedLength s src.sampleRate) := by
  unfold processAudio
  split_ifs with h
  · refine ⟨by simp [h], ?_⟩
    constructor
    · rintro ⟨out, hout⟩
      exact absurd hout (by simp)
    · intro hlt
      omega
  · refine ⟨by simp [h], ?_⟩
    constructor
    · intro
      omega
    · intro
      exact ⟨_, rfl⟩

/-- Buffer for the C1 counterexample: sample rate 1 Hz, one channel, one
frame, so its duration is 1 second. -/
def cexCropBuffer : AudioBuffer := ⟨1, [[0]]⟩

/-- Settings for the C1 counterexample: a valid crop window 0.1 to 0.2
seconds whose endpoints quantize to the same sample frame. -/
def cexCropSettings : AudioEditSettings :=
  ⟨1 / 10, 1 / 5, 1, ⟨false, 0, .linear⟩, ⟨false, 0, .linear⟩⟩

/-- Counterexample to C1 as stated: a crop window satisfying
0 ≤ cropStart < cropEnd ≤ duration on which processAudio does not return
a buffer at all — both endpoints quantize to frame 0, so it fails with
emptyRegion. -/
theorem processAudio_valid_crop_can_fail :
    (0 ≤ cexCropSettings.cropStart ∧
      cexCropSettings.cropStart < cexCropSettings.cropEnd ∧
      cexCropSettings.cropEnd ≤ cexCropBuffer.duration) ∧
    processAudio cexCropBuffer cexCropSettings = .error .emptyRegion := by
  constructor
  · refine ⟨by norm_num [cexCropSettings], by norm_num [cexCropSettings], ?_⟩
    norm_num [cexCropSettings, cexCropBuffer, AudioBuffer.duration,
      AudioBuffer.frameCount]
  · have h : croppedLength cexCropSettings cexCropBuffer.sampleRate ≤ 0 := by
      norm_num [croppedLength, startSample, endSample, cexCropSettings, cexCropBuffer]
    unfold processAudio
    simp [h]

/-- C1 as amended: whenever the crop window is valid and its quantized
length is positive, processAudio returns a buffer whose frame count is
the difference of the floored endpoint frames, with channel count and
sample rate equal to the source's. -/
theorem processAudio_output_shape (src : AudioBuffer) (s : AudioEditSettings)
    (hch : src.channels ≠ [])
    (h0 : 0 ≤ s.cropStart) (hlt : s.cropStart < s.cropEnd)
    (hle : s.cropEnd ≤ src.duration)
    (hpos : 0 < croppedLength s src.sampleRate) :
    ∃ out, processAudio src s = .ok out ∧
      (out.frameCount : ℤ) = endSample s src.sampleRate - startSample s src.sampleRate ∧
      out.channelCount = src.numberOfChannels ∧
      out.sampleRate = src.sampleRate := by
  obtain ⟨c, cs, hcc⟩ := List.exists_cons_of_ne_nil hch
  unfold processAudio
  rw [if_neg (by omega)]
  refine ⟨_, rfl, ?_, ?_, rfl⟩
  · rw [RenderedBuffer.frameCount]
    rw [hcc]
    simp only [List.map_cons, List.headD_cons, List.length_map, List.length_range]
    rw [Int.toNat_of_nonneg hpos.le]
    rfl
  · show (src.channels.map _).length = _
    rw [List.length_map]
    rfl

/-- Buffer for the C1 witness: 10 Hz, one channel of ten unit samples. -/
def wCropBuffer : AudioBuffer := ⟨10, [List.replicate 10 1]⟩

/-- Settings for the C1 witness: crop the first half second. -/
def wCropSettings : AudioEditSettings :=
  ⟨0, 1 / 2, 1, ⟨false, 0, .linear⟩, ⟨false, 0, .linear⟩⟩

/-- Witness for C1 as amended, at a concrete valid crop of positive
quantized length. -/
theorem processAudio_output_shape_witness :
    ∃ out, processAudio wCropBuffer wCropSettings = .ok out ∧
      (out.frameCount : ℤ) =
        endSample wCropSettings wCropBuffer.sampleRate -
          startSample wCropSettings wCropBuffer.sampleRate ∧
      out.channelCount = wCropBuffer.numberOfChannels ∧
      out.sampleRate = wCropBuffer.sampleRate :=
  processAudio_output_shape wCropBuffer wCropSettings
    (by simp [wCropBuffer])
    (by norm_num [wCropSettings])
    (by norm_num [wCropSettings])
    (by norm_num [wCropSettings, wCropBuffer, AudioBuffer.duration,
      AudioBuffer.frameCount])
    (by norm_num [croppedLength, startSample, endSample, wCropSettings, wCropBuffer])

/-- A fade-in whose duration is not positive schedules no events: the gain
is the same as with the fade-in disabled. -/
theorem gainAt_fadeIn_inert (s : AudioEditSettings) (hd : s.fadeIn.duration ≤ 0)
    (T t : ℚ) :
    gainAt s T t = gainAt { s with fadeIn := { s.fadeIn with enabled := false } } T t := by
  unfold gainAt
  dsimp only
  rw [if_neg (c := _ ∧ 0 < s.fadeIn.duration ∧ t < min s.fadeIn.duration T)
      (fun h => absurd h.2.1 (not_lt.2 hd)),
    if_neg (c := (false = true) ∧ _)
      (fun h => absurd h.1 (by simp))]

/-- A fade-out whose duration is not positive schedules no events: the gain
is the same as with the fade-out disabled. -/
theorem gainAt_fadeOut_inert (s : AudioEditSettings) (hd : s.fadeOut.duration ≤ 0)
    (T t : ℚ) :
    gainAt s T t = gainAt { s with fadeOut := { s.fadeOut with enabled := false } } T t := by
  unfold gainAt
  dsimp only
  rw [if_neg (c := s.fadeOut.enabled = true ∧ _)
      (fun h => absurd h.2.1 (not_lt.2 hd)),
    if_neg (c := (false = true) ∧ _)
      (fun h => absurd h.1 (by simp))]

/-- C10: a fade with enabled set but a zero or negative duration is treated
exactly like a disabled fade — processAudio returns the same buffer — and
when both fades are inert only the static volume gain is applied at every
time of the region. -/
theorem processAudio_zero_duration_fade (src : AudioBuffer) (s : AudioEditSettings) :
    (s.fadeIn.duration ≤ 0 →
      processAudio src s =
        processAudio src { s with fadeIn := { s.fadeIn with enabled := false } }) ∧
    (s.fadeOut.duration ≤ 0 →
      processAudio src s =
        processAudio src { s with fadeOut := { s.fadeOut with enabled := false } }) ∧
    (s.fadeIn.duration ≤ 0 → s.fadeOut.duration ≤ 0 →
      ∀ T t : ℚ, gainAt s T t = s.volume) := by
  refine ⟨fun hd => ?_, fun hd => ?_, fun hdi hdo T t => ?_⟩
  · unfold processAudio
    simp only [gainAt_fadeIn_inert s hd]
    rfl
  · unfold processAudio
    simp only [gainAt_fadeOut_inert s hd]
    rfl
  · unfold gainAt
    rw [if_neg fun h => absurd h.2.1 (not_lt.2 hdo),
      if_neg fun h => absurd h.2.1 (not_lt.2 hdi)]

/-- The exponential fade-in starts at the epsilon floor 0.001, not at 0. -/
theorem fadeInGain_exponential_zero (v : ℚ) :
    fadeInGain v .exponential 0 = 1 / 1000 := by
  show (1 / 1000 : ℝ) * ((1000 : ℝ) * v) ^ (((0 : ℚ) : ℝ)) = 1 / 1000
  rw [Rat.cast_zero, Real.rpow_zero, mul_one]

/-- The exponential fade-in ends at the full static volume. -/
theorem fadeInGain_exponential_one (v : ℚ) :
    fadeInGain v .exponential 1 = v := by
  show (1 / 1000 : ℝ) * ((1000 : ℝ) * v) ^ (((1 : ℚ) : ℝ)) = v
  rw [Rat.cast_one, Real.rpow_one]
  ring

/-- The exponential fade-out starts at the full static volume. -/
theorem fadeOutGain_exponential_zero (v : ℚ) :
    fadeOutGain v .exponential 0 = v := by
  show (v : ℝ) * ((1 / 1000 : ℝ) / v) ^ (((0 : ℚ) : ℝ)) = v
  rw [Rat.cast_zero, Real.rpow_zero, mul_one]

/-- The exponential fade-out ends at the epsilon floor 0.001, not at 0. -/
theorem fadeOutGain_exponential_one (v : ℚ) (hv : v ≠ 0) :
    fadeOutGain v .exponential 1 = 1 / 1000 := by
  have hv : (v : ℝ) ≠ 0 := Rat.cast_ne_zero.mpr hv
  show (v : ℝ) * ((1 / 1000 : ℝ) / v) ^ (((1 : ℚ) : ℝ)) = 1 / 1000
  rw [Rat.cast_one, Real.rpow_one]
  field_simp
  ring

/-- Settings for the C9 counterexample: unit volume, linear fade-in and
fade-out of 0.8 seconds each over a 1 second region, so the windows
overlap and the fade-out covers the end of the fade-in window. -/
def cexBoundarySettings : AudioEditSettings :=
  ⟨0, 1, 1, ⟨true, 4 / 5, .linear⟩, ⟨true, 4 / 5, .linear⟩⟩

/-- Counterexample to C9 as stated: with an overlapping fade-out the gain
at the exact end of the enabled fade-in window is 1 / 4, not the static
volume 1 — the fade-out envelope has replaced the fade-in there. -/
theorem gain_fadeIn_end_not_volume :
    cexBoundarySettings.fadeIn.enabled = true ∧
    0 < cexBoundarySettings.fadeIn.duration ∧
    gainAt cexBoundarySettings 1 (min cexBoundarySettings.fadeIn.duration 1) = 1 / 4 ∧
    (1 / 4 : ℝ) ≠ (cexBoundarySettings.volume : ℝ) := by
  have hmin : min ((4 : ℚ) / 5) 1 = 4 / 5 := by norm_num
  refine ⟨rfl, by norm_num [cexBoundarySettings], ?_, by norm_num [cexBoundarySettings]⟩
  show gainAt cexBoundarySettings 1 (min ((4 : ℚ) / 5) 1) = 1 / 4
  rw [hmin]
  unfold gainAt
  rw [if_pos ⟨rfl, by norm_num [cexBoundarySettings], by norm_num [cexBoundarySettings, hmin]⟩]
  show fadeOutGain 1 .linear _ = 1 / 4
  unfold fadeOutGain
  show (((1 : ℚ) : ℝ)) * applyEaseCurve _ .linear = 1 / 4
  unfold applyEaseCurve
  have harg : ((4 : ℚ) / 5 - (1 - min cexBoundarySettings.fadeOut.duration 1)) /
      min cexBoundarySettings.fadeOut.duration 1 = 3 / 4 := by
    norm_num [cexBoundarySettings]
  rw [harg]
  push_cast
  norm_num

/-- C9 as amended: when the fade-out does not cover the point (here: is
disabled), the gain at the exact end of the enabled fade-in window equals
the static volume, and for the exponential fade-in curve the gain at time
0 is the epsilon floor 0.001 rather than 0; the enabled exponential
fade-out with nonzero volume ends at the epsilon floor 0.001 rather
than 0. -/
theorem gain_boundary (s : AudioEditSettings) (T : ℚ) (hT : 0 < T) :
    (s.fadeIn.enabled = true → 0 < s.fadeIn.duration → s.fadeOut.enabled = false →
      gainAt s T (min s.fadeIn.duration T) = s.volume) ∧
    (s.fadeIn.enabled = true → 0 < s.fadeIn.duration → s.fadeOut.enabled = false →
      s.fadeIn.curve = .exponential → gainAt s T 0 = 1 / 1000) ∧
    (s.fadeOut.enabled = true → 0 < s.fadeOut.duration →
      s.fadeOut.curve = .exponential → s.volume ≠ 0 →
      gainAt s T T = 1 / 1000) := by
  refine ⟨fun hen hdur hfo => ?_, fun hen hdur hfo hcurve => ?_, fun hen hdur hcurve hv => ?_⟩
  · unfold gainAt
    rw [if_neg fun hc => by rw [hfo] at hc; exact absurd hc.1 (by simp),
      if_neg fun hc => lt_irrefl _ hc.2.2]
  · unfold gainAt
    rw [if_neg fun hc => by rw [hfo] at hc; exact absurd hc.1 (by simp),
      if_pos ⟨hen, hdur, lt_min hdur hT⟩, zero_div, hcurve]
    exact fadeInGain_exponential_zero s.volume
  · unfold gainAt
    have hfoD : (0 : ℚ) < min s.fadeOut.duration T := lt_min hdur hT
    rw [if_pos ⟨hen, hdur, by linarith [hfoD]⟩, sub_sub_cancel,
      div_self (ne_of_gt hfoD), hcurve]
    exact fadeOutGain_exponential_one s.volume hv

/-- Settings for the C9 witness: exponential fade-out of half a second,
fade-in disabled, volume 1. -/
def wBoundarySettings : AudioEditSettings :=
  ⟨0, 1, 1, ⟨false, 0, .linear⟩, ⟨true, 1 / 2, .exponential⟩⟩

/-- Witness for C9 as amended: the exponential fade-out of the concrete
settings ends at the epsilon floor. -/
theorem gain_boundary_witness :
    gainAt wBoundarySettings 1 1 = 1 / 1000 :=
  (gain_boundary wBoundarySettings 1 (by norm_num)).2.2 rfl
    (by norm_num [wBoundarySettings]) rfl (by norm_num [wBoundarySettings])

/-- Normalized fade-in envelope relative to the volume baseline: the
eased progress for the ramp and sampled curves, and the gain divided by
the volume for the exponential ramp (whose shape is not separable from
the volume). -/
noncomputable def fadeInEnvelope (v : ℚ) (curve : EaseCurve) (p : ℚ) : ℝ :=
  match curve with
  | .exponential => fadeInGain v .exponential p / (v : ℝ)
  | c => applyEaseCurve (p : ℝ) c

/-- Normalized fade-out envelope relative to the volume baseline: the
mirrored eased progress, and the gain divided by the volume for the
exponential ramp. -/
noncomputable def fadeOutEnvelope (v : ℚ) (curve : EaseCurve) (p : ℚ) : ℝ :=
  match curve with
  | .exponential => fadeOutGain v .exponential p / (v : ℝ)
  | c => applyEaseCurve (1 - (p : ℝ)) c

/-- Definition following the claim's words, for comparison with the gain
the scheduled events produce: the static volume baseline, times the
fade-in envelope value when the time lies inside the fade-in window,
times the fade-out envelope value when the time lies inside the fade-out
window — multiplicative composition of the three gains. -/
noncomputable def specGainMult (s : AudioEditSettings) (T t : ℚ) : ℝ :=
  (s.volume : ℝ) *
    (if s.fadeIn.enabled = true ∧ 0 < s.fadeIn.duration ∧ t ≤ min s.fadeIn.duration T then
      fadeInEnvelope s.volume s.fadeIn.curve (t / min s.fadeIn.duration T)
    else 1) *
    (if s.fadeOut.enabled = true ∧ 0 < s.fadeOut.duration ∧
        T - min s.fadeOut.duration T ≤ t then
      fadeOutEnvelope s.volume s.fadeOut.curve
        ((t - (T - min s.fadeOut.duration T)) / min s.fadeOut.duration T)
    else 1)

/-- The fade-in gain factors through the volume and the normalized
envelope, for nonzero volume. -/
theorem fadeInGain_eq_mul (v : ℚ) (hv : v ≠ 0) (c : EaseCurve) (p : ℚ) :
    fadeInGain v c p = (v : ℝ) * fadeInEnvelope v c p := by
  have hv : (v : ℝ) ≠ 0 := Rat.cast_ne_zero.mpr hv
  cases c with
  | exponential =>
    show fadeInGain v .exponential p =
      (v : ℝ) * (fadeInGain v .exponential p / (v : ℝ))
    rw [mul_comm, div_mul_cancel₀ _ hv]
  | linear => rfl
  | logarithmic => rfl
  | sCurve => rfl

/-- The fade-out gain factors through the volume and the normalized
envelope, for nonzero volume. -/
theorem fadeOutGain_eq_mul (v : ℚ) (hv : v ≠ 0) (c : EaseCurve) (p : ℚ) :
    fadeOutGain v c p = (v : ℝ) * fadeOutEnvelope v c p := by
  have hv : (v : ℝ) ≠ 0 := Rat.cast_ne_zero.mpr hv
  cases c with
  | exponential =>
    show fadeOutGain v .exponential p =
      (v : ℝ) * (fadeOutGain v .exponential p / (v : ℝ))
    rw [mul_comm, div_mul_cancel₀ _ hv]
  | linear => rfl
  | logarithmic => rfl
  | sCurve => rfl

/-- At the end of its window every fade-in envelope reaches 1, for
nonzero volume. -/
theorem fadeInEnvelope_one (v : ℚ) (hv : v ≠ 0) (c : EaseCurve) :
    fadeInEnvelope v c 1 = 1 := by
  have hv : (v : ℝ) ≠ 0 := Rat.cast_ne_zero.mpr hv
  cases c with
  | exponential =>
    show fadeInGain v .exponential 1 / (v : ℝ) = 1
    rw [fadeInGain_exponential_one, div_self hv]
  | linear => show (((1 : ℚ) : ℝ)) = 1; rw [Rat.cast_one]
  | logarithmic =>
    show Real.sqrt (((1 : ℚ) : ℝ)) = 1
    rw [Rat.cast_one, Real.sqrt_one]
  | sCurve =>
    show (((1 : ℚ) : ℝ)) * ((1 : ℚ) : ℝ) * (3 - 2 * ((1 : ℚ) : ℝ)) = 1
    rw [Rat.cast_one]
    norm_num

/-- The later-scheduled gain equals the claim's multiplicative
composition whenever the fade windows do not overlap and the volume is
nonzero. -/
theorem gainAt_eq_specGainMult (s : AudioEditSettings) (T t : ℚ)
    (hv : s.volume ≠ 0) (hT : 0 < T)
    (hsep : s.fadeIn.enabled = true → s.fadeOut.enabled = true →
      s.fadeIn.duration + s.fadeOut.duration ≤ T) :
    gainAt s T t = specGainMult s T t := by
  unfold gainAt specGainMult
  by_cases hfo : s.fadeOut.enabled = true ∧ 0 < s.fadeOut.duration ∧
      T - min s.fadeOut.duration T ≤ t
  · rw [if_pos hfo, if_pos hfo]
    by_cases hfi : s.fadeIn.enabled = true ∧ 0 < s.fadeIn.duration ∧
        t ≤ min s.fadeIn.duration T
    · have hsum := hsep hfi.1 hfo.1
      have hminO : min s.fadeOut.duration T = s.fadeOut.duration :=
        min_eq_left (by linarith [hfi.2.1])
      have hminI : min s.fadeIn.duration T = s.fadeIn.duration :=
        min_eq_left (by linarith [hfo.2.1])
      have hteq : t = min s.fadeIn.duration T := by
        refine le_antisymm hfi.2.2 ?_
        have := hfo.2.2
        rw [hminO] at this
        rw [hminI]
        linarith
      rw [if_pos hfi, hteq,
        div_self (ne_of_gt (by rw [hminI]; exact hfi.2.1)),
        fadeInEnvelope_one s.volume hv, mul_one]
      exact fadeOutGain_eq_mul s.volume hv _ _
    · rw [if_neg hfi, mul_one]
      exact fadeOutGain_eq_mul s.volume hv _ _
  · rw [if_neg hfo, if_neg hfo]
    by_cases hfi : s.fadeIn.enabled = true ∧ 0 < s.fadeIn.duration ∧
        t < min s.fadeIn.duration T
    · rw [if_pos hfi, if_pos ⟨hfi.1, hfi.2.1, hfi.2.2.le⟩, mul_one]
      exact fadeInGain_eq_mul s.volume hv _ _
    · rw [if_neg hfi, mul_one]
      by_cases hfi2 : s.fadeIn.enabled = true ∧ 0 < s.fadeIn.duration ∧
          t ≤ min s.fadeIn.duration T
      · have hteq : t = min s.fadeIn.duration T := by
          rcases eq_or_lt_of_le hfi2.2.2 with h | h
          · exact h
          · exact absurd ⟨hfi2.1, hfi2.2.1, h⟩ hfi
        rw [if_pos hfi2, hteq, div_self (ne_of_gt (lt_min hfi2.2.1 hT)),
          fadeInEnvelope_one s.volume hv, mul_one]
      · rw [if_neg hfi2, mul_one]

/-- Sample of a rendering result at a channel and frame, 0 on failure. -/
noncomputable def renderedSample (res : Except ProcessError RenderedBuffer)
    (ch i : ℕ) : ℝ :=
  match res with
  | .ok b => (b.channels.getD ch []).getD i 0
  | .error _ => 0

/-- Reading a mapped list inside its bounds applies the function to the
element read. -/
theorem getD_map_of_lt {α β : Type} (f : α → β) (l : List α) (n : ℕ) (d : β)
    (h : n < l.length) : (l.map f).getD n d = f l[n] := by
  rw [List.getD_eq_getElem _ _ (by simpa using h), List.getElem_map]

/-- Reading a mapped range inside its bounds applies the function to the
index read. -/
theorem getD_range_map {β : Type} (g : ℕ → β) (n i : ℕ) (d : β) (hi : i < n) :
    ((List.range n).map g).getD i d = g i := by
  rw [List.getD_eq_getElem _ _ (by simpa using hi), List.getElem_map,
    List.getElem_range]

/-- Buffer for the C3 counterexample: 10 Hz, one channel of ten unit
samples. -/
def cexMultBuffer : AudioBuffer := ⟨10, [List.replicate 10 1]⟩

/-- Settings for the C3 counterexample: unit volume, linear fade-in and
fade-out of 0.8 seconds each over the full 1 second region, so the fade
windows overlap. -/
def cexMultSettings : AudioEditSettings :=
  ⟨0, 1, 1, ⟨true, 4 / 5, .linear⟩, ⟨true, 4 / 5, .linear⟩⟩

/-- Counterexample to C3 as stated: with overlapping fade windows the
rendered sample at frame 3 (time 0.3 s) is 7 / 8 — the fade-out ramp has
replaced the fade-in — while the multiplicative composition of both
envelope values with the volume predicts 21 / 64. -/
theorem processAudio_overlap_not_multiplicative :
    renderedSample (processAudio cexMultBuffer cexMultSettings) 0 3 = 7 / 8 ∧
    (cexMultBuffer.getChannelData 0).getD 3 0 = 1 ∧
    specGainMult cexMultSettings 1 (3 / 10) = 21 / 64 ∧
    (7 / 8 : ℝ) ≠ ((1 : ℚ) : ℝ) * (21 / 64) := by
  have hlen : croppedLength cexMultSettings cexMultBuffer.sampleRate = 10 := by
    norm_num [croppedLength, startSample, endSample, cexMultSettings, cexMultBuffer]
  have hstart : (startSample cexMultSettings cexMultBuffer.sampleRate).toNat = 0 := by
    norm_num [startSample, cexMultSettings, cexMultBuffer]
  have hgain : ∀ T t : ℚ, T = 1 → t = 3 / 10 →
      gainAt cexMultSettings T t = 7 / 8 := by
    rintro T t rfl rfl
    unfold gainAt
    rw [if_pos ⟨rfl, by norm_num [cexMultSettings], by norm_num [cexMultSettings]⟩]
    show fadeOutGain 1 .linear _ = 7 / 8
    have harg : ((3 : ℚ) / 10 - (1 - min cexMultSettings.fadeOut.duration 1)) /
        min cexMultSettings.fadeOut.duration 1 = 1 / 8 := by
      norm_num [cexMultSettings]
    rw [harg]
    show (((1 : ℚ) : ℝ)) * applyEaseCurve (1 - (((1 : ℚ) / 8 : ℚ) : ℝ)) .linear = 7 / 8
    unfold applyEaseCurve
    push_cast
    norm_num
  refine ⟨?_, rfl, ?_, by norm_num⟩
  · unfold processAudio
    rw [if_neg (by omega)]
    simp only [renderedSample]
    rw [getD_map_of_lt _ _ _ _ (by norm_num [cexMultBuffer])]
    simp only [show cexMultBuffer.channels = [List.replicate 10 1] from rfl,
      List.getElem_cons_zero]
    rw [getD_range_map _ _ _ _ (by rw [hlen]; norm_num)]
    rw [hstart]
    rw [show (List.replicate 10 (1 : ℚ)).getD (0 + 3) 0 = 1 from rfl]
    rw [Rat.cast_one, one_mul]
    refine hgain _ _ ?_ ?_
    · rw [hlen]
      norm_num [cexMultBuffer]
    · norm_num [cexMultBuffer]
  · unfold specGainMult
    rw [if_pos ⟨rfl, by norm_num [cexMultSettings], by norm_num [cexMultSettings]⟩,
      if_pos ⟨rfl, by norm_num [cexMultSettings], by norm_num [cexMultSettings]⟩]
    have hargI : (3 : ℚ) / 10 / min cexMultSettings.fadeIn.duration 1 = 3 / 8 := by
      norm_num [cexMultSettings]
    have hargO : ((3 : ℚ) / 10 - (1 - min cexMultSettings.fadeOut.duration 1)) /
        min cexMultSettings.fadeOut.duration 1 = 1 / 8 := by
      norm_num [cexMultSettings]
    rw [hargI, hargO]
    show (((1 : ℚ) : ℝ)) * applyEaseCurve (((3 : ℚ) / 8 : ℚ) : ℝ) .linear *
      applyEaseCurve (1 - (((1 : ℚ) / 8 : ℚ) : ℝ)) .linear = 21 / 64
    unfold applyEaseCurve
    push_cast
    norm_num

/-- C3 as amended: for nonzero volume and fade windows that do not
overlap, every rendered sample is the source sample at startSample + i
times the multiplicative composition of the static volume with the
fade-in and fade-out envelope values at time i / sampleRate; when the
windows overlap the later-applied fade-out envelope replaces the
composed gain from its window start on (see the counterexample). -/
theorem processAudio_gain_composition (src : AudioBuffer) (s : AudioEditSettings)
    (hsr : 0 < src.sampleRate) (hv : s.volume ≠ 0)
    (hpos : 0 < croppedLength s src.sampleRate)
    (hsep : s.fadeIn.enabled = true → s.fadeOut.enabled = true →
      s.fadeIn.duration + s.fadeOut.duration ≤
        (croppedLength s src.sampleRate : ℚ) / src.sampleRate) :
    ∃ out, processAudio src s = .ok out ∧
      ∀ ch i, ch < src.numberOfChannels → i < (croppedLength s src.sampleRate).toNat →
        (out.channels.getD ch []).getD i 0 =
          ((src.getChannelData ch).getD ((startSample s src.sampleRate).toNat + i) 0 : ℝ) *
            specGainMult s ((croppedLength s src.sampleRate : ℚ) / src.sampleRate)
              ((i : ℚ) / src.sampleRate) := by
  have hT : (0 : ℚ) < (croppedLength s src.sampleRate : ℚ) / src.sampleRate :=
    div_pos (by exact_mod_cast hpos) (by exact_mod_cast hsr)
  unfold processAudio
  rw [if_neg (by omega)]
  refine ⟨_, rfl, fun ch i hch hi => ?_⟩
  show ((List.map _ src.channels).getD ch []).getD i 0 = _
  rw [getD_map_of_lt _ _ _ _ hch]
  rw [getD_range_map _ _ _ _ hi]
  rw [show src.getChannelData ch = src.channels.getD ch [] from rfl,
    List.getD_eq_getElem _ _ hch]
  rw [gainAt_eq_specGainMult s _ _ hv hT hsep]

/-- Buffer for the C3 witness: 10 Hz, one channel of ten unit samples. -/
def wMultBuffer : AudioBuffer := ⟨10, [List.replicate 10 1]⟩

/-- Settings for the C3 witness: volume one half, linear 0.2 second
fade-in, fade-out disabled, full-region crop. -/
def wMultSettings : AudioEditSettings :=
  ⟨0, 1, 1 / 2, ⟨true, 1 / 5, .linear⟩, ⟨false, 0, .linear⟩⟩

/-- Witness for C3 as amended, at a concrete buffer and non-overlapping
fade configuration. -/
theorem processAudio_gain_composition_witness :
    ∃ out, processAudio wMultBuffer wMultSettings = .ok out ∧
      ∀ ch i, ch < wMultBuffer.numberOfChannels →
        i < (croppedLength wMultSettings wMultBuffer.sampleRate).toNat →
        (out.channels.getD ch []).getD i 0 =
          ((wMultBuffer.getChannelData ch).getD
              ((startSample wMultSettings wMultBuffer.sampleRate).toNat + i) 0 : ℝ) *
            specGainMult wMultSettings
              ((croppedLength wMultSettings wMultBuffer.sampleRate : ℚ) /
                wMultBuffer.sampleRate)
              ((i : ℚ) / wMultBuffer.sampleRate) :=
  processAudio_gain_composition wMultBuffer wMultSettings
    (by norm_num [wMultBuffer])
    (by norm_num [wMultSettings])
    (by norm_num [croppedLength, startSample, endSample, wMultSettings, wMultBuffer])
    (fun _ h => by simp [wMultSettings] at h)

/-- The fixed codec/container preference list of the source
pickOpusMimeType, in its order: mp4 with opus, ogg with opus, webm with
opus, generic webm. -/
def opusCandidates : List String :=
  ["audio/mp4;codecs=opus", "audio/ogg;codecs=opus", "audio/webm;codecs=opus",
    "audio/webm"]

/-- Translation of the source pickOpusMimeType: the first candidate the
host reports supported, and the fourth candidate (generic webm) when the
search comes back empty. The host's MediaRecorder.isTypeSupported probe
is a parameter. -/
def pickOpusMimeType (supported : String → Bool) : String :=
  (opusCandidates.find? supported).getD (opusCandidates.getD 3 "")

/-- Counterexample to C4 as stated: with a host that supports no
candidate at all, the selection policy still returns the generic webm
entry — an entry the host reported unsupported — instead of surfacing an
UnsupportedContainer failure. -/
theorem pickOpusMimeType_unsupported_fallback :
    pickOpusMimeType (fun _ => false) = "audio/webm" ∧
    (fun _ => (false : Bool)) "audio/webm" = false ∧
    "audio/webm" ∈ opusCandidates := by
  refine ⟨rfl, rfl, by decide⟩

/-- C4 as amended: the selection policy never leaves the preference list,
and when the host supports no candidate it silently falls back to the
last entry, generic webm, rather than reporting an UnsupportedContainer
failure itself — a failure can then only arise downstream in the host
recorder. -/
theorem pickOpusMimeType_in_list (supported : String → Bool) :
    pickOpusMimeType supported ∈ opusCandidates ∧
    ((∀ c ∈ opusCandidates, supported c = false) →
      pickOpusMimeType supported = "audio/webm") := by
  constructor
  · unfold pickOpusMimeType
    cases hfind : opusCandidates.find? supported with
    | none => exact by decide
    | some v =>
      show v ∈ opusCandidates
      exact List.mem_of_find?_eq_some hfind
  · intro hall
    unfold pickOpusMimeType
    rw [List.find?_eq_none.mpr fun x hx => by simp [hall x hx]]
    rfl

/-- Truncation toward zero of a rational, as the host applies to a
non-integral number before storing it in a 16-bit view. -/
def truncQ (q : ℚ) : ℤ := if q < 0 then -⌊-q⌋ else ⌊q⌋

/-- Clamping of one sample, from the source encoder:
Math.max(-1, Math.min(1, sample)). -/
def clampSample (x : ℚ) : ℚ := max (-1) (min 1 x)

/-- Quantization of one sample, from the source encoder: clamp, then
scale a negative value by 0x8000 and a non-negative one by 0x7fff, the
host truncating toward zero when the value is stored. -/
def quantize16 (x : ℚ) : ℤ :=
  if clampSample x < 0 then truncQ (clampSample x * 32768)
  else truncQ (clampSample x * 32767)

/-- Little-endian bytes of a 16-bit store, as the host's view writes
them (wrapping modulo 2 to the 16). -/
def uint16le (n : ℕ) : List ℕ := [n % 256, n / 256 % 256]

/-- Little-endian bytes of a 32-bit store, as the host's view writes
them (wrapping modulo 2 to the 32). -/
def uint32le (n : ℕ) : List ℕ :=
  [n % 256, n / 256 % 256, n / 65536 % 256, n / 16777216 % 256]

/-- Little-endian bytes of a signed 16-bit store: two's complement of
the integer, then the two bytes. -/
def int16le (z : ℤ) : List ℕ := uint16le (z % 65536).toNat

/-- Byte values the source writeString stores: the character codes of
the string. -/
def asciiBytes (str : String) : List ℕ := str.data.map Char.toNat

/-- The data section of the source audioBufferToWav: for each frame in
order, for each channel in order, the quantized sample as a signed
16-bit little-endian integer. -/
def wavData (b : AudioBuffer) : List ℕ :=
  (List.range b.frameCount).flatMap fun i =>
    (List.range b.numberOfChannels).flatMap fun ch =>
      int16le (quantize16 ((b.getChannelData ch).getD i 0))

/-- Translation of the source audioBufferToWav: the 44-byte canonical
header followed by the samples, interleaved frame by frame in channel
order, each quantized to a signed 16-bit little-endian integer. The
block align is the channel count times 2 bytes per sample. -/
def audioBufferToWav (b : AudioBuffer) : List ℕ :=
  asciiBytes "RIFF" ++
  uint32le (44 + b.frameCount * (b.numberOfChannels * 2) - 8) ++
  asciiBytes "WAVE" ++
  asciiBytes "fmt " ++
  uint32le 16 ++
  uint16le 1 ++
  uint16le b.numberOfChannels ++
  uint32le b.sampleRate ++
  uint32le (b.sampleRate * (b.numberOfChannels * 2)) ++
  uint16le (b.numberOfChannels * 2) ++
  uint16le 16 ++
  asciiBytes "data" ++
  uint32le (b.frameCount * (b.numberOfChannels * 2)) ++
  wavData b

/-- C6: for every input sample, also outside the nominal range, the
encoder clamps to the interval from -1 to 1 and quantizes symmetrically
(negative values scaled by 32768, non-negative ones by 32767), and the
quantized integer always lies in the signed 16-bit range. -/
theorem quantize16_range (x : ℚ) :
    -32768 ≤ quantize16 x ∧ quantize16 x ≤ 32767 ∧
    -1 ≤ clampSample x ∧ clampSample x ≤ 1 ∧
    quantize16 x =
      (if clampSample x < 0 then truncQ (clampSample x * 32768)
       else truncQ (clampSample x * 32767)) := by
  have hlo : -1 ≤ clampSample x := le_max_left _ _
  have hhi : clampSample x ≤ 1 := max_le (by norm_num) (min_le_left _ _)
  refine ⟨?_, ?_, hlo, hhi, rfl⟩
  · unfold quantize16 truncQ
    split_ifs with h1 h2 h3
    · -- negative branch: -32768 ≤ -⌊-(c * 32768)⌋
      have : ⌊-(clampSample x * 32768)⌋ ≤ 32768 := by
        have harg : -(clampSample x * 32768) ≤ 32768 := by nlinarith
        calc ⌊-(clampSample x * 32768)⌋ ≤ ⌊(32768 : ℚ)⌋ := Int.floor_mono harg
          _ = 32768 := by norm_num
      omega
    · nlinarith [Int.floor_nonneg.2 (show (0:ℚ) ≤ clampSample x * 32768 by nlinarith)]
    · exfalso
      linarith [not_lt.1 h1]
    · have : (0 : ℤ) ≤ ⌊clampSample x * 32767⌋ := by
        apply Int.floor_nonneg.2
        nlinarith
      omega
  · unfold quantize16 truncQ
    split_ifs with h1 h2 h3
    · have : (0 : ℤ) ≤ ⌊-(clampSample x * 32768)⌋ := by
        apply Int.floor_nonneg.2
        nlinarith
      omega
    · have : ⌊clampSample x * 32768⌋ ≤ 0 := by
        have : clampSample x * 32768 < 1 := by nlinarith
        calc ⌊clampSample x * 32768⌋ ≤ ⌊(0 : ℚ)⌋ := by
              apply Int.floor_mono
              nlinarith
          _ = 0 := by norm_num
      omega
    · have : (0 : ℤ) ≤ ⌊-(clampSample x * 32767)⌋ := by
        apply Int.floor_nonneg.2
        nlinarith
      omega
    · have : ⌊clampSample x * 32767⌋ ≤ 32767 := by
        calc ⌊clampSample x * 32767⌋ ≤ ⌊(32767 : ℚ)⌋ := Int.floor_mono (by nlinarith)
          _ = 32767 := by norm_num
      omega

/-- Every frame contributes channel count times 2 bytes to the data
section. -/
theorem wavData_length (b : AudioBuffer) :
    (wavData b).length = b.frameCount * (b.numberOfChannels * 2) := by
  unfold wavData
  rw [List.length_flatMap]
  simp only [Function.comp_def]
  have hinner : ∀ i : ℕ, (((List.range b.numberOfChannels).flatMap fun ch =>
      int16le (quantize16 ((b.getChannelData ch).getD i 0)))).length =
        b.numberOfChannels * 2 := by
    intro i
    rw [List.length_flatMap]
    simp only [Function.comp_def]
    have hc : (List.range b.numberOfChannels).map
        (fun ch => (int16le (quantize16 ((b.getChannelData ch).getD i 0))).length) =
        (List.range b.numberOfChannels).map (fun _ => 2) :=
      List.map_congr_left fun ch _ => rfl
    rw [hc, List.map_const', List.length_range, List.sum_replicate, smul_eq_mul]
  have ho : (List.range b.frameCount).map
      (fun i => (((List.range b.numberOfChannels).flatMap fun ch =>
        int16le (quantize16 ((b.getChannelData ch).getD i 0)))).length) =
      (List.range b.frameCount).map (fun _ => b.numberOfChannels * 2) :=
    List.map_congr_left fun i _ => hinner i
  rw [ho, List.map_const', List.length_range, List.sum_replicate, smul_eq_mul]

set_option maxHeartbeats 2000000 in
/-- C5: the encoder is total — the statement holds for every buffer,
zero-length ones included — and produces 44 plus frameCount times
channelCount times 2 bytes: the canonical little-endian header with
every field of the layout table, followed by the interleaved quantized
samples. The two final generic conjuncts recover the stored numeric
value from the little-endian bytes, so each field holds its table value
exactly. -/
theorem audioBufferToWav_layout (b : AudioBuffer) :
    (audioBufferToWav b).length = 44 + b.frameCount * b.numberOfChannels * 2 ∧
    (audioBufferToWav b).take 4 = asciiBytes "RIFF" ∧
    ((audioBufferToWav b).drop 4).take 4 =
      uint32le (44 + b.frameCount * (b.numberOfChannels * 2) - 8) ∧
    ((audioBufferToWav b).drop 8).take 4 = asciiBytes "WAVE" ∧
    ((audioBufferToWav b).drop 12).take 4 = asciiBytes "fmt " ∧
    ((audioBufferToWav b).drop 16).take 4 = uint32le 16 ∧
    ((audioBufferToWav b).drop 20).take 2 = uint16le 1 ∧
    ((audioBufferToWav b).drop 22).take 2 = uint16le b.numberOfChannels ∧
    ((audioBufferToWav b).drop 24).take 4 = uint32le b.sampleRate ∧
    ((audioBufferToWav b).drop 28).take 4 =
      uint32le (b.sampleRate * (b.numberOfChannels * 2)) ∧
    ((audioBufferToWav b).drop 32).take 2 = uint16le (b.numberOfChannels * 2) ∧
    ((audioBufferToWav b).drop 34).take 2 = uint16le 16 ∧
    ((audioBufferToWav b).drop 36).take 4 = asciiBytes "data" ∧
    ((audioBufferToWav b).drop 40).take 4 =
      uint32le (b.frameCount * (b.numberOfChannels * 2)) ∧
    (audioBufferToWav b).drop 44 = wavData b ∧
    (∀ n : ℕ, n < 4294967296 →
      (uint32le n).getD 0 0 + 256 * (uint32le n).getD 1 0 +
        65536 * (uint32le n).getD 2 0 + 16777216 * (uint32le n).getD 3 0 = n) ∧
    (∀ n : ℕ, n < 65536 →
      (uint16le n).getD 0 0 + 256 * (uint16le n).getD 1 0 = n) := by
  refine ⟨?_, rfl, rfl, rfl, rfl, rfl, rfl, rfl, rfl, rfl, rfl, rfl, rfl, rfl, rfl,
    ?_, ?_⟩
  · unfold audioBufferToWav
    simp only [List.length_append, wavData_length,
      show (asciiBytes "RIFF").length = 4 from rfl,
      show (asciiBytes "WAVE").length = 4 from rfl,
      show (asciiBytes "fmt ").length = 4 from rfl,
      show (asciiBytes "data").length = 4 from rfl,
      show ∀ n, (uint32le n).length = 4 from fun n => rfl,
      show ∀ n, (uint16le n).length = 2 from fun n => rfl]
    ring
  · intro n hn
    unfold uint32le
    simp only [List.getD_cons_zero, List.getD_cons_succ]
    omega
  · intro n hn
    unfold uint16le
    simp only [List.getD_cons_zero, List.getD_cons_succ]
    omega

/-- One analysis window of the source extractWaveformPeaks: the run of
samplesPerBucket samples starting at bucket index times samplesPerBucket
(the take clips at the channel end, as the source's min does). -/
def bucketWindow (data : List ℚ) (spb i : ℕ) : List ℚ :=
  (data.drop (i * spb)).take spb

/-- The maximum-tracking fold of the source loop, started at -1. -/
def bucketMax (w : List ℚ) : ℚ := w.foldl (fun m v => if v > m then v else m) (-1)

/-- The minimum-tracking fold of the source loop, started at 1. -/
def bucketMin (w : List ℚ) : ℚ := w.foldl (fun m v => if v < m then v else m) 1

/-- Translation of the source extractWaveformPeaks: over the first
channel, numBuckets windows of floor(length / numBuckets) samples each,
reduced to their maximum-tracking and minimum-tracking folds. -/
def extractWaveformPeaks (b : AudioBuffer) (numBuckets : ℕ) : List ℚ × List ℚ :=
  ((List.range numBuckets).map fun i =>
    bucketMax (bucketWindow (b.getChannelData 0)
      ((b.getChannelData 0).length / numBuckets) i),
   (List.range numBuckets).map fun i =>
    bucketMin (bucketWindow (b.getChannelData 0)
      ((b.getChannelData 0).length / numBuckets) i))

/-- The maximum-tracking fold never goes below its start value. -/
theorem le_foldl_max (w : List ℚ) :
    ∀ a : ℚ, a ≤ w.foldl (fun m v => if v > m then v else m) a := by
  induction w with
  | nil => intro a; exact le_refl a
  | cons v w ih =>
    intro a
    refine le_trans ?_ (ih _)
    dsimp only
    split_ifs with h
    · exact h.le
    · exact le_refl a

/-- The minimum-tracking fold never goes above its start value. -/
theorem foldl_min_le (w : List ℚ) :
    ∀ a : ℚ, w.foldl (fun m v => if v < m then v else m) a ≤ a := by
  induction w with
  | nil => intro a; exact le_refl a
  | cons v w ih =>
    intro a
    refine le_trans (ih _) ?_
    dsimp only
    split_ifs with h
    · exact h.le
    · exact le_refl a

/-- Every window element is at most the maximum-tracking fold. -/
theorem mem_le_foldl_max (w : List ℚ) :
    ∀ (a x : ℚ), x ∈ w → x ≤ w.foldl (fun m v => if v > m then v else m) a := by
  induction w with
  | nil => intro a x hx; exact absurd hx (List.not_mem_nil x)
  | cons v w ih =>
    intro a x hx
    rcases List.mem_cons.1 hx with rfl | hx
    · refine le_trans ?_ (le_foldl_max w _)
      dsimp only
      split_ifs with h
      · exact le_refl x
      · exact not_lt.1 h
    · exact ih _ x hx

/-- Every window element is at least the minimum-tracking fold. -/
theorem foldl_min_le_mem (w : List ℚ) :
    ∀ (a x : ℚ), x ∈ w → w.foldl (fun m v => if v < m then v else m) a ≤ x := by
  induction w with
  | nil => intro a x hx; exact absurd hx (List.not_mem_nil x)
  | cons v w ih =>
    intro a x hx
    rcases List.mem_cons.1 hx with rfl | hx
    · refine le_trans (foldl_min_le w _) ?_
      dsimp only
      split_ifs with h
      · exact le_refl x
      · exact not_lt.1 h
    · exact ih _ x hx

/-- The maximum-tracking fold is its start value or a window element. -/
theorem foldl_max_mem (w : List ℚ) :
    ∀ a : ℚ, w.foldl (fun m v => if v > m then v else m) a = a ∨
      w.foldl (fun m v => if v > m then v else m) a ∈ w := by
  induction w with
  | nil => intro a; exact Or.inl rfl
  | cons v w ih =>
    intro a
    rcases ih (if v > a then v else a) with h | h
    · rw [List.foldl_cons]
      by_cases hv : v > a
      · right
        rw [h, if_pos hv]
        exact List.mem_cons_self v w
      · left
        rw [h, if_neg hv]
    · right
      exact List.mem_cons_of_mem v h

/-- The minimum-tracking fold is its start value or a window element. -/
theorem foldl_min_mem (w : List ℚ) :
    ∀ a : ℚ, w.foldl (fun m v => if v < m then v else m) a = a ∨
      w.foldl (fun m v => if v < m then v else m) a ∈ w := by
  induction w with
  | nil => intro a; exact Or.inl rfl
  | cons v w ih =>
    intro a
    rcases ih (if v < a then v else a) with h | h
    · rw [List.foldl_cons]
      by_cases hv : v < a
      · right
        rw [h, if_pos hv]
        exact List.mem_cons_self v w
      · left
        rw [h, if_neg hv]
    · right
      exact List.mem_cons_of_mem v h

/-- A full window inside the channel has exactly samplesPerBucket
samples. -/
theorem bucketWindow_length (data : List ℚ) (spb i : ℕ)
    (h : (i + 1) * spb ≤ data.length) :
    (bucketWindow data spb i).length = spb := by
  unfold bucketWindow
  rw [List.length_take, List.length_drop]
  rw [Nat.succ_mul] at h
  omega

/-- Buckets inside the bucket count sit entirely inside the channel. -/
theorem bucket_inside (len N i : ℕ) (hi : i < N) : (i + 1) * (len / N) ≤ len :=
  calc (i + 1) * (len / N) ≤ N * (len / N) := Nat.mul_le_mul_right _ hi
    _ = len / N * N := Nat.mul_comm _ _
    _ ≤ len := Nat.div_mul_le_self len N

/-- C7: extractPeaks is total and returns two sequences of length
exactly N; windows are the contiguous runs of floor(length / N) samples
(a final partial window is dropped); an empty window (bucket count
larger than the sample count) yields the sentinel pair -1, 1; a
non-empty window yields its maximum-tracking fold above its
minimum-tracking fold, every window sample lies between the two, and
each fold value is its start value or an element of the window. -/
theorem extractWaveformPeaks_spec (b : AudioBuffer) (N : ℕ) (hN : 0 < N) :
    (extractWaveformPeaks b N).1.length = N ∧
    (extractWaveformPeaks b N).2.length = N ∧
    (∀ i, i < N →
      (extractWaveformPeaks b N).1.getD i 0 =
        bucketMax (bucketWindow (b.getChannelData 0)
          ((b.getChannelData 0).length / N) i) ∧
      (extractWaveformPeaks b N).2.getD i 0 =
        bucketMin (bucketWindow (b.getChannelData 0)
          ((b.getChannelData 0).length / N) i)) ∧
    (∀ i, i < N →
      (bucketWindow (b.getChannelData 0) ((b.getChannelData 0).length / N) i).length =
        (b.getChannelData 0).length / N) ∧
    (∀ i, i < N → (b.getChannelData 0).length < N →
      (extractWaveformPeaks b N).1.getD i 0 = -1 ∧
      (extractWaveformPeaks b N).2.getD i 0 = 1) ∧
    (∀ i, i < N → N ≤ (b.getChannelData 0).length →
      (extractWaveformPeaks b N).2.getD i 0 ≤ (extractWaveformPeaks b N).1.getD i 0) ∧
    (∀ i, i < N →
      ∀ x ∈ bucketWindow (b.getChannelData 0) ((b.getChannelData 0).length / N) i,
        (extractWaveformPeaks b N).2.getD i 0 ≤ x ∧
        x ≤ (extractWaveformPeaks b N).1.getD i 0) ∧
    (∀ i, i < N →
      ((extractWaveformPeaks b N).1.getD i 0 = -1 ∨
        (extractWaveformPeaks b N).1.getD i 0 ∈
          bucketWindow (b.getChannelData 0) ((b.getChannelData 0).length / N) i) ∧
      ((extractWaveformPeaks b N).2.getD i 0 = 1 ∨
        (extractWaveformPeaks b N).2.getD i 0 ∈
          bucketWindow (b.getChannelData 0) ((b.getChannelData 0).length / N) i)) := by
  have hfst : ∀ i, i < N → (extractWaveformPeaks b N).1.getD i 0 =
      bucketMax (bucketWindow (b.getChannelData 0)
        ((b.getChannelData 0).length / N) i) := by
    intro i hi
    exact getD_range_map _ _ _ _ hi
  have hsnd : ∀ i, i < N → (extractWaveformPeaks b N).2.getD i 0 =
      bucketMin (bucketWindow (b.getChannelData 0)
        ((b.getChannelData 0).length / N) i) := by
    intro i hi
    exact getD_range_map _ _ _ _ hi
  have hwinlen : ∀ i, i < N →
      (bucketWindow (b.getChannelData 0) ((b.getChannelData 0).length / N) i).length =
        (b.getChannelData 0).length / N := by
    intro i hi
    exact bucketWindow_length _ _ _ (bucket_inside _ _ _ hi)
  refine ⟨by simp [extractWaveformPeaks], by simp [extractWaveformPeaks],
    fun i hi => ⟨hfst i hi, hsnd i hi⟩, hwinlen, ?_, ?_, ?_, ?_⟩
  · intro i hi hlt
    have hspb : (b.getChannelData 0).length / N = 0 := Nat.div_eq_of_lt hlt
    rw [hfst i hi, hsnd i hi, hspb]
    exact ⟨rfl, rfl⟩
  · intro i hi hge
    have hspb : 0 < (b.getChannelData 0).length / N :=
      (Nat.one_le_div_iff hN).2 hge
    have hne : bucketWindow (b.getChannelData 0) ((b.getChannelData 0).length / N) i ≠ [] := by
      intro hnil
      rw [← List.length_eq_zero] at hnil
      rw [hwinlen i hi] at hnil
      omega
    obtain ⟨v, w, hw⟩ := List.exists_cons_of_ne_nil hne
    rw [hfst i hi, hsnd i hi]
    calc bucketMin (bucketWindow (b.getChannelData 0) ((b.getChannelData 0).length / N) i)
        ≤ v := by
          refine foldl_min_le_mem _ _ _ ?_
          rw [hw]
          exact List.mem_cons_self v w
      _ ≤ bucketMax (bucketWindow (b.getChannelData 0) ((b.getChannelData 0).length / N) i) := by
          refine mem_le_foldl_max _ _ _ ?_
          rw [hw]
          exact List.mem_cons_self v w
  · intro i hi x hx
    rw [hfst i hi, hsnd i hi]
    exact ⟨foldl_min_le_mem _ _ _ hx, mem_le_foldl_max _ _ _ hx⟩
  · intro i hi
    rw [hfst i hi, hsnd i hi]
    exact ⟨foldl_max_mem _ _, foldl_min_mem _ _⟩

/-- Buffer for the C7 witness: one channel of eight samples at 8 Hz. -/
def wPeakBuffer : AudioBuffer :=
  ⟨8, [[1 / 2, -3 / 4, 1 / 4, 0, 2, -2, 1 / 8, -1 / 8]]⟩

/-- Witness for C7 at the concrete buffer with three buckets. -/
theorem extractWaveformPeaks_spec_witness :
    (extractWaveformPeaks wPeakBuffer 3).1.length = 3 :=
  (extractWaveformPeaks_spec wPeakBuffer 3 (by norm_num)).1

end AudioEdit
